import Mathlib

/-!
# Verification of the Mandelbrot explorer (mandelbrot.py / mandelgui.py)

A shallow embedding of the numeric and state-transition core of the
repository, together with theorems settling the specification claims.

Conventions of the embedding:
* Python floats are modelled by exact arithmetic: `ℚ` for the escape
  evaluator and the coordinate mapping (all the inputs in the claims are
  dyadic rationals on which binary floating point is exact), and `ℝ` for
  the trigonometric color-map generator.
* Python's `int(...)` truncation is `pyInt`; Python list indexing,
  including negative indices, is `pyIndex`.
* `exit(2)` and uncaught exceptions are modelled by dedicated error
  constructors and by `Option`.
-/

namespace Mandelbrot

/-! ## Escape evaluator — `MandelBase.mandelbrotIterations` (mandelbrot.py 159-188)

The Python loop is `z = 0; n = 0; while abs(z) < 2 and n < N: n += 1;
z = z*z + c; return n`.  We carry the remaining iteration budget `N - n`
as fuel; `abs z < 2` is expressed by the exact equivalent
`normSq z < 4`. -/

/-- Squared magnitude `Re(z)^2 + Im(z)^2` of a complex number given as a pair. -/
def normSq (z : ℚ × ℚ) : ℚ := z.1 * z.1 + z.2 * z.2

/-- One Mandelbrot iteration `z*z + c` on pairs. -/
def mandelStep (c z : ℚ × ℚ) : ℚ × ℚ :=
  (z.1 * z.1 - z.2 * z.2 + c.1, 2 * z.1 * z.2 + c.2)

/-- The `while` loop of `mandelbrotIterations`, with the remaining budget as fuel:
counts how many steps run before `|z| ≥ 2` or the budget is exhausted. -/
def mandelLoop (c : ℚ × ℚ) : ℕ → (ℚ × ℚ) → ℕ
  | 0, _ => 0
  | k + 1, z => if normSq z < 4 then mandelLoop c k (mandelStep c z) + 1 else 0

/-- `MandelBase.mandelbrotIterations(c, N)`. -/
def mandelbrotIterations (c : ℚ × ℚ) (N : ℕ) : ℕ := mandelLoop c N (0, 0)

/-- Unfolding lemma for `mandelLoop` usable on numeral fuel. -/
theorem mandelLoop_unfold (c : ℚ × ℚ) (N : ℕ) (z : ℚ × ℚ) :
    mandelLoop c N z =
      if 0 < N then
        (if normSq z < 4 then mandelLoop c (N - 1) (mandelStep c z) + 1 else 0)
      else 0 := by
  cases N <;> simp [mandelLoop]

/-- Once `|z| ≥ 2` the loop performs no further step, whatever the budget. -/
theorem mandelLoop_of_escaped (c : ℚ × ℚ) (m : ℕ) (z : ℚ × ℚ) (h : 4 ≤ normSq z) :
    mandelLoop c m z = 0 := by
  cases m <;> simp [mandelLoop, not_lt.2 h]

/-! ## Pixel grid — `MandelBase.getPixelMap` (mandelbrot.py 191-222) -/

/-- `PlotRange` (mandelbrot.py 13-32): upper-left corner and side length of the
square plot region. -/
structure PlotRange where
  corner : ℚ × ℚ
  zSize : ℚ

/-- The initial full-set plot region `PlotRange(complex(-2,2), 4)`. -/
def fullSetRange : PlotRange := ⟨((-2 : ℚ), (2 : ℚ)), 4⟩

/-- `MandelBase.getPixelMap(noPixels, plotRange)`: the grid of complex sample
points, `pixelMap[i][j] = corner + (0.5 + i)·Δ - (0.5 + j)·Δ·im` with
`Δ = zSize / noPixels`. -/
def getPixelMap (noPixels : ℕ) (pr : PlotRange) : List (List (ℚ × ℚ)) :=
  (List.range noPixels).map fun i =>
    (List.range noPixels).map fun j =>
      (pr.corner.1 + 0.5 * (pr.zSize / (noPixels : ℚ)) + (i : ℚ) * (pr.zSize / (noPixels : ℚ)),
       pr.corner.2 - 0.5 * (pr.zSize / (noPixels : ℚ)) - (j : ℚ) * (pr.zSize / (noPixels : ℚ)))

/-! ## Coordinate conversion and zoom selection — mandelgui.py

`MCoordConverter.setPixelCoord` (mandelgui.py 57-76) translates a pixel
position to a complex number via `corner + scale*x - scale*y·im` — with no
half-pixel offset.  `MView.mouseReleaseEvent` (mandelgui.py 385-417) builds
the next viewport from the rubber-band square. -/

/-- `MCoordConverter.setPixelCoord`: the complex position computed from a pixel
position, `(corner.real + scale*x, corner.imag - scale*y)`. -/
def setPixelCoord (corner : ℚ × ℚ) (scale : ℚ) (pos : ℚ × ℚ) : ℚ × ℚ :=
  (corner.1 + scale * pos.1, corner.2 - scale * pos.2)

/-- The zoom-in viewport computation of `MView.mouseReleaseEvent`:
`corner = setPixelCoord(rubberBand.pos())`, `width = rubberBand.width * scale`,
rejected when the scaled width is zero.  Returns the new `(corner, width)`. -/
def mouseReleaseZoom (corner : ℚ × ℚ) (scale : ℚ) (rbPos : ℚ × ℚ) (rbWidth : ℚ) :
    Option ((ℚ × ℚ) × ℚ) :=
  if rbWidth * scale ≠ 0 then some (setPixelCoord corner scale rbPos, rbWidth * scale)
  else none

/-- Modelled from the spec: the §4.3 `ViewportMapper.pixelToComplex` pixel-center
mapping with the half-pixel offset, `(corner.real + 0.5·Δ + x·Δ,
corner.imag - 0.5·Δ - y·Δ)`.  Stated from the spec's words for comparison
with the code's `setPixelCoord`. -/
def pixelToComplexSpec (corner : ℚ × ℚ) (delta : ℚ) (p : ℚ × ℚ) : ℚ × ℚ :=
  (corner.1 + 0.5 * delta + p.1 * delta, corner.2 - 0.5 * delta - p.2 * delta)

/-! ## Navigation history — `MView` (mandelgui.py 258-259, 321-334, 407-414)

A history entry is `[corner, width, depth, intensity, noPixels]`.  Zoom-in
appends; the right-button branch of `mousePressEvent` pops twice when the
stack has more than one element and regenerates from the second value
popped. -/

/-- A history entry `[corner, width, depth, intensity, noPixels]`. -/
abbrev HEntry := (ℚ × ℚ) × ℚ × ℕ × ℕ × ℕ

/-- The initial history list of `MView.__init__` (mandelgui.py 259). -/
def initialHistory : List HEntry := [(((-2 : ℚ), (2 : ℚ)), 4, 200, 200, 500)]

/-- The `history.append(...)` of `mouseReleaseEvent` (mandelgui.py 413). -/
def zoomInH (h : List HEntry) (v : HEntry) : List HEntry := h ++ [v]

/-- The right-button branch of `mousePressEvent` (mandelgui.py 321-334):
when more than one entry remains, `history.pop()` discards the current entry
and a second `history.pop()` removes and returns the previous one, which is
then displayed; otherwise a warning is printed and nothing changes.
Returns the new history and the displayed entry, if any. -/
def zoomOutH (h : List HEntry) : List HEntry × Option HEntry :=
  if 1 < h.length then (h.dropLast.dropLast, h.dropLast.getLast?)
  else (h, none)

/-! ## Color map — `ColorMap` (mandelbrot.py 35-115)

`ColorMap.generate(N, intensity)` builds the table in four passes, exactly
as the source: a blue→green top half of size `N/2` (integer division, the
code is Python 2), a green→red bottom half of size `N - N/2`, an in-place
darkness fade over the first `(N/2)/3` entries, and finally
`colorMap[-1] = (0,0,0)`.  Channels are computed with Python's `int(...)`
truncation of `intensity·sin α` / `intensity·cos α`. -/

/-- Python's `int(...)`: truncation of a real number toward zero. -/
noncomputable def pyInt (x : ℝ) : ℤ := if 0 ≤ x then ⌊x⌋ else ⌈x⌉

/-- Top-half entry `i` of the color map (mandelbrot.py 71-77):
`alpha = (i/tRange)·0.5·π`, color `(0, int(intensity·sin α), int(intensity·cos α))`. -/
noncomputable def topColor (tRange intensity : ℕ) (i : ℕ) : ℤ × ℤ × ℤ :=
  (0, pyInt ((intensity : ℝ) * Real.sin (((i : ℝ) / (tRange : ℝ)) * (0.5 * Real.pi))),
      pyInt ((intensity : ℝ) * Real.cos (((i : ℝ) / (tRange : ℝ)) * (0.5 * Real.pi))))

/-- Bottom-half entry `i` of the color map (mandelbrot.py 80-86):
`alpha = (i/bRange)·0.5·π`, color `(int(intensity·sin α), int(intensity·cos α), 0)`. -/
noncomputable def bottomColor (bRange intensity : ℕ) (i : ℕ) : ℤ × ℤ × ℤ :=
  (pyInt ((intensity : ℝ) * Real.sin (((i : ℝ) / (bRange : ℝ)) * (0.5 * Real.pi))),
   pyInt ((intensity : ℝ) * Real.cos (((i : ℝ) / (bRange : ℝ)) * (0.5 * Real.pi))), 0)

/-- The anti-banding darkening of entry `i` (mandelbrot.py 89-95):
`darkness = 0.05 + ((1 - 0.05)/fRange)·i`, green and blue channels scaled,
red forced to 0. -/
noncomputable def fadeColor (fRange : ℕ) (i : ℕ) (c : ℤ × ℤ × ℤ) : ℤ × ℤ × ℤ :=
  (0, pyInt ((0.05 + ((1 - 0.05) / (fRange : ℝ)) * (i : ℝ)) * ((c.2.1 : ℤ) : ℝ)),
      pyInt ((0.05 + ((1 - 0.05) / (fRange : ℝ)) * (i : ℝ)) * ((c.2.2 : ℤ) : ℝ)))

/-- The concatenated top and bottom halves of the table before the fade pass. -/
noncomputable def topBottom (N intensity : ℕ) : List (ℤ × ℤ × ℤ) :=
  (List.range (N / 2)).map (topColor (N / 2) intensity) ++
    (List.range (N - N / 2)).map (bottomColor (N - N / 2) intensity)

/-- One step of the in-place fade loop: `colorMap[i] = fade(colorMap[i])`. -/
noncomputable def fadeStep (fRange : ℕ) (acc : List (ℤ × ℤ × ℤ)) (i : ℕ) :
    List (ℤ × ℤ × ℤ) :=
  acc.set i (fadeColor fRange i (acc.getD i (0, 0, 0)))

/-- The fade pass: the in-place loop `for i in range(fRange)` over the table. -/
noncomputable def fadeFold (fRange : ℕ) (cm : List (ℤ × ℤ × ℤ)) : List (ℤ × ℤ × ℤ) :=
  (List.range fRange).foldl (fadeStep fRange) cm

namespace ColorMap

/-- `ColorMap.generate(N, intensity)` (mandelbrot.py 48-98). -/
noncomputable def generate (N intensity : ℕ) : List (ℤ × ℤ × ℤ) :=
  (fadeFold (N / 2 / 3) (topBottom N intensity)).set
    ((fadeFold (N / 2 / 3) (topBottom N intensity)).length - 1) (0, 0, 0)

end ColorMap

/-- Result of `ColorMap.getColor`: a color, the out-of-range `exit(2)`, or a
Python `IndexError` from the list access itself. -/
inductive GetColorResult
  | ok (c : ℤ × ℤ × ℤ)
  | outOfRange
  | indexError
deriving DecidableEq

/-- Python list indexing `l[n]` with negative-index wrap-around; `none` models
an `IndexError`. -/
def pyIndex {α : Type} (l : List α) (n : ℤ) : Option α :=
  if 0 ≤ n then l[n.toNat]?
  else if 0 ≤ (l.length : ℤ) + n then l[((l.length : ℤ) + n).toNat]? else none

namespace ColorMap

/-- `ColorMap.getColor(n)` (mandelbrot.py 100-115): if `n < N` return
`colorMap[n]` (Python indexing), else print an error and `exit(2)`. -/
def getColor (cm : List (ℤ × ℤ × ℤ)) (N : ℕ) (n : ℤ) : GetColorResult :=
  if n < (N : ℤ) then
    match pyIndex cm n with
    | some c => .ok c
    | none => .indexError
  else .outOfRange

end ColorMap

/-! ### Structure lemmas for the generated color map -/

theorem topBottom_length (N I : ℕ) : (topBottom N I).length = N := by
  simp [topBottom]
  omega

theorem fadeFold_length (fR : ℕ) (cm : List (ℤ × ℤ × ℤ)) :
    (fadeFold fR cm).length = cm.length := by
  unfold fadeFold
  generalize List.range fR = l
  induction l generalizing cm with
  | nil => rfl
  | cons a l ih => simp [List.foldl_cons, fadeStep, ih]

theorem fadeFold_getElem_ge (fR : ℕ) (cm : List (ℤ × ℤ × ℤ)) (i : ℕ) (h : fR ≤ i) :
    (fadeFold fR cm)[i]? = cm[i]? := by
  unfold fadeFold
  suffices H : ∀ k, k ≤ i → ((List.range k).foldl (fadeStep fR) cm)[i]? = cm[i]? from
    H fR h
  intro k hk
  induction k with
  | zero => rfl
  | succ m ih =>
      rw [List.range_succ, List.foldl_append, List.foldl_cons, List.foldl_nil, fadeStep,
        List.getElem?_set_ne (by omega), ih (by omega)]

theorem generate_length (N I : ℕ) : (ColorMap.generate N I).length = N := by
  rw [ColorMap.generate, List.length_set, fadeFold_length, topBottom_length]

theorem topBottom_getElem_top (N I i : ℕ) (h : i < N / 2) :
    (topBottom N I)[i]? = some (topColor (N / 2) I i) := by
  rw [topBottom, List.getElem?_append, if_pos (by simp [h]), List.getElem?_map,
    List.getElem?_range h]
  simp

theorem topBottom_getElem_bottom (N I i : ℕ) (h1 : N / 2 ≤ i) (h2 : i < N) :
    (topBottom N I)[i]? = some (bottomColor (N - N / 2) I (i - N / 2)) := by
  rw [topBottom, List.getElem?_append, if_neg (by simp; omega), List.getElem?_map,
    List.length_map, List.length_range, List.getElem?_range (by omega)]
  simp

theorem generate_getElem_top (N I i : ℕ) (hf : N / 2 / 3 ≤ i) (ht : i < N / 2)
    (hl : i < N - 1) :
    (ColorMap.generate N I)[i]? = some (topColor (N / 2) I i) := by
  rw [ColorMap.generate,
    List.getElem?_set_ne (by rw [fadeFold_length, topBottom_length]; omega),
    fadeFold_getElem_ge _ _ _ hf, topBottom_getElem_top _ _ _ ht]

theorem generate_getElem_bottom (N I i : ℕ) (hb : N / 2 ≤ i) (hl : i < N - 1) :
    (ColorMap.generate N I)[i]? = some (bottomColor (N - N / 2) I (i - N / 2)) := by
  rw [ColorMap.generate,
    List.getElem?_set_ne (by rw [fadeFold_length, topBottom_length]; omega),
    fadeFold_getElem_ge _ _ _ (by omega), topBottom_getElem_bottom _ _ _ hb (by omega)]

theorem generate_getElem_last (N I : ℕ) (h : 1 ≤ N) :
    (ColorMap.generate N I)[N - 1]? = some (0, 0, 0) := by
  rw [ColorMap.generate, List.getElem?_set, fadeFold_length, topBottom_length,
    if_pos rfl, if_pos (by omega)]

/-- For `0 ≤ n < N` on a table of length `N`, `getColor` succeeds with the
entry at index `n`. -/
theorem getColor_ok_of_nonneg (cm : List (ℤ × ℤ × ℤ)) (N : ℕ) (n : ℤ)
    (h0 : 0 ≤ n) (h1 : n < (N : ℤ)) (hlen : cm.length = N) :
    ∃ c, cm[n.toNat]? = some c ∧ ColorMap.getColor cm N n = .ok c := by
  obtain ⟨c, hc⟩ : ∃ c, cm[n.toNat]? = some c :=
    ⟨_, List.getElem?_eq_getElem (by omega)⟩
  refine ⟨c, hc, ?_⟩
  rw [ColorMap.getColor, if_pos h1, pyIndex, if_pos h0, hc]

/-! ## Render engine — `MandelBase.fillImage` (mandelbrot.py 225-277)

`fillImage` emits `noPixels²` on `maxSignal`, then walks the grid in
row-major order `(i, j)`; per cell it computes the escape count, resolves
`colorMap.getColor(mIter - 1)` (where `exit(2)` aborts the program, modelled
by `none`), paints the pixel unless the dead `i > noPixels or j > noPixels`
guard fires, and emits the running counter `itrNo` on `itrSignal`. -/

/-- The outcome of one `fillImage` run: the `maxSignal` value, the painted
pixels in order `(i, j, color)`, and the `itrSignal` emissions in order. -/
structure RenderResult where
  maxEmit : ℕ
  pixels : List (ℕ × ℕ × (ℤ × ℤ × ℤ))
  progress : List ℕ

/-- The body of the `fillImage` double loop for one cell `(i, j)`, threading
the state `(painted pixels, progress emissions, itrNo)`. -/
def fillStep (noPixels iterN : ℕ) (complexList : List (List (ℚ × ℚ)))
    (tbl : List (ℤ × ℤ × ℤ)) (cmN : ℕ)
    (st : List (ℕ × ℕ × (ℤ × ℤ × ℤ)) × List ℕ × ℕ) (ij : ℕ × ℕ) :
    Option (List (ℕ × ℕ × (ℤ × ℤ × ℤ)) × List ℕ × ℕ) :=
  match ColorMap.getColor tbl cmN
      ((mandelbrotIterations ((complexList.getD ij.1 []).getD ij.2 (0, 0)) iterN : ℤ) - 1) with
  | .ok color =>
      some (if noPixels < ij.1 ∨ noPixels < ij.2 then st.1
            else st.1 ++ [(ij.1, ij.2, color)],
            st.2.1 ++ [st.2.2], st.2.2 + 1)
  | _ => none

/-- `MandelBase.fillImage(plotRange, noPixels, iterN, colorMap)`, with the
color map passed as its table and size.  `none` models the `exit(2)` abort
inside `getColor`. -/
def fillImage (pr : PlotRange) (noPixels iterN : ℕ) (tbl : List (ℤ × ℤ × ℤ)) (cmN : ℕ) :
    Option RenderResult :=
  (((List.range noPixels).flatMap fun i => (List.range noPixels).map fun j => (i, j)).foldlM
      (fillStep noPixels iterN (getPixelMap noPixels pr) tbl cmN) ([], [], 1)).map
    fun st => ⟨noPixels * noPixels, st.1, st.2.1⟩

/-- Modelled from the spec: the §4.2 top-half color formula stated with
`round(...)` instead of the code's `int(...)` truncation.  Written from the
spec's words for comparison with `topColor`. -/
noncomputable def specTopColor (topSize intensity : ℕ) (i : ℕ) : ℤ × ℤ × ℤ :=
  (0, round ((intensity : ℝ) * Real.sin (((i : ℝ) / (topSize : ℝ)) * (Real.pi / 2))),
      round ((intensity : ℝ) * Real.cos (((i : ℝ) / (topSize : ℝ)) * (Real.pi / 2))))

/-! ## Helper lemmas for the escape evaluator -/

/-- Truncation lemma for the escape loop: a shorter budget yields the
`min`-truncation of the longer run. -/
theorem mandelLoop_min (c : ℚ × ℚ) (k1 : ℕ) :
    ∀ (k2 : ℕ) (z : ℚ × ℚ), k1 ≤ k2 → mandelLoop c k1 z = min (mandelLoop c k2 z) k1 := by
  induction k1 with
  | zero =>
      intro k2 z _
      simp only [mandelLoop]
      omega
  | succ k ih =>
      intro k2 z h
      obtain ⟨m, rfl⟩ : ∃ m, k2 = m + 1 := ⟨k2 - 1, by omega⟩
      by_cases hz : normSq z < 4
      · simp only [mandelLoop, if_pos hz]
        have := ih m (mandelStep c z) (by omega)
        omega
      · simp only [mandelLoop, if_neg hz]
        omega

/-! ## Claim theorems -/

/-- C6: for every complex point `c` with `Re(c)² + Im(c)² ≥ 4` and every
`maxDepth N ≥ 1`, the escape evaluator returns exactly 1: the loop body runs
once (the initial `|z| = 0` passes the guard), sets `z = c`, and `c` then
fails the `|z| < 2` guard. -/
theorem iterate_escaped_eq_one (c : ℚ × ℚ) (N : ℕ) (h4 : 4 ≤ normSq c) (hN : 1 ≤ N) :
    mandelbrotIterations c N = 1 := by
  obtain ⟨m, rfl⟩ : ∃ m, N = m + 1 := ⟨N - 1, by omega⟩
  have hz : mandelStep c (0, 0) = c := by simp [mandelStep]
  rw [mandelbrotIterations]
  simp only [mandelLoop]
  rw [if_pos (by norm_num [normSq]), hz, mandelLoop_of_escaped c m c h4]

/-- Witness for C6 at `c = (2, 0)`, `N = 1`. -/
theorem iterate_escaped_eq_one_witness :
    4 ≤ normSq ((2 : ℚ), 0) ∧ 1 ≤ 1 ∧ mandelbrotIterations ((2 : ℚ), 0) 1 = 1 :=
  ⟨by norm_num [normSq], le_refl 1,
    iterate_escaped_eq_one ((2 : ℚ), 0) 1 (by norm_num [normSq]) (le_refl 1)⟩

/-- C9: the escape count is a truncation of a single underlying escape
sequence: for all depths `1 ≤ N1 ≤ N2`,
`iterate(c, N1) = min(iterate(c, N2), N1)`. -/
theorem iterate_truncation_min (c : ℚ × ℚ) (N1 N2 : ℕ) (h1 : 1 ≤ N1) (h12 : N1 ≤ N2) :
    mandelbrotIterations c N1 = min (mandelbrotIterations c N2) N1 :=
  mandelLoop_min c N1 N2 (0, 0) h12

/-- Witness for C9 at `c = (1, 1)`, `N1 = 1`, `N2 = 2`. -/
theorem iterate_truncation_min_witness :
    1 ≤ 1 ∧ 1 ≤ 2 ∧
      mandelbrotIterations ((1 : ℚ), 1) 1 = min (mandelbrotIterations ((1 : ℚ), 1) 2) 1 :=
  ⟨le_refl 1, by norm_num, iterate_truncation_min ((1 : ℚ), 1) 1 2 (le_refl 1) (by norm_num)⟩

/-- C1 (code bug): evaluating the history transitions at the failing input.
Starting from the initial one-entry history, one zoom-in followed by one
zoom-out leaves the history stack EMPTY (the right-click handler pops twice
and never re-pushes the entry it displays), violating the `size ≥ 1`
invariant claimed by the spec. -/
theorem zoomOut_empties_history_after_one_zoom_in :
    zoomOutH (zoomInH initialHistory (((-1 : ℚ), 1), 2, 200, 200, 500)) =
      ([], some (((-2 : ℚ), (2 : ℚ)), 4, 200, 200, 500)) := rfl

/-- C2 (code bug): on a stack with three entries, one zoom-out removes TWO
entries, not one: the displayed viewport `v1` is returned but no longer on
the stack, whose new top is `v0`.  On a one-entry stack the no-mutation
behavior does hold. -/
theorem zoomOut_removes_two_entries :
    zoomOutH [(((-2 : ℚ), 2), 4, 200, 200, 500), (((-1 : ℚ), 1), 2, 200, 200, 500),
        ((0, 0), 1, 200, 200, 500)] =
      ([(((-2 : ℚ), 2), 4, 200, 200, 500)], some (((-1 : ℚ), 1), 2, 200, 200, 500)) ∧
    zoomOutH [(((-2 : ℚ), 2), 4, 200, 200, 500)] =
      ([(((-2 : ℚ), 2), 4, 200, 200, 500)], none) :=
  ⟨rfl, rfl⟩

/-- C4 counterexample: with current corner `(-2, 2)`, scale factor 2, and the
selection square at pixel min-corner `(0, 0)` with width 1, the code's new
viewport corner is `(-2, 2)`, not the spec's pixel-center mapping
`(-1, 1)` (which includes the half-pixel offset). -/
theorem selection_corner_ne_pixel_center_spec :
    mouseReleaseZoom ((-2 : ℚ), 2) 2 (0, 0) 1 ≠
      some (pixelToComplexSpec ((-2 : ℚ), 2) 2 (0, 0), 1 * 2) := by
  norm_num [mouseReleaseZoom, setPixelCoord, pixelToComplexSpec]

/-- C4 as amended: for every current viewport and selection square of positive
width, the produced viewport has corner `(corner.re + x·Δ, corner.im - y·Δ)` —
the pixel-CORNER mapping, with no half-pixel offset — and side length equal
to the square's pixel width times the current scale factor. -/
theorem selection_corner_no_half_offset (corner : ℚ × ℚ) (scale : ℚ) (p : ℚ × ℚ)
    (w : ℚ) (hw : 0 < w) (hs : 0 < scale) :
    mouseReleaseZoom corner scale p w =
      some ((corner.1 + scale * p.1, corner.2 - scale * p.2), w * scale) := by
  rw [mouseReleaseZoom, if_pos (mul_pos hw hs).ne', setPixelCoord]

/-- Witness for the amended C4 at corner `(-2, 2)`, scale 2, pixel `(3, 4)`,
width 1. -/
theorem selection_corner_no_half_offset_witness :
    (0 : ℚ) < 1 ∧ (0 : ℚ) < 2 ∧
      mouseReleaseZoom ((-2 : ℚ), 2) 2 (3, 4) 1 =
        some (((-2 : ℚ) + 2 * 3, (2 : ℚ) - 2 * 4), 1 * 2) :=
  ⟨by norm_num, by norm_num,
    selection_corner_no_half_offset ((-2 : ℚ), 2) 2 (3, 4) 1 (by norm_num) (by norm_num)⟩

/-! ## Color-map claim theorems -/

/-- Green channel of the raw top-half entry at `i = 1`, `topSize = 3`,
`intensity = 255`: `int(255·sin(π/6)) = int(127.5) = 127`. -/
theorem topColor_green_at_one_third : (topColor 3 255 1).2.1 = 127 := by
  have hα : ((1 : ℝ) / (3 : ℝ)) * (0.5 * Real.pi) = Real.pi / 6 := by ring
  simp only [topColor, Nat.cast_ofNat, Nat.cast_one]
  rw [hα, Real.sin_pi_div_six, pyInt, if_pos (by norm_num)]
  norm_num

/-- Green channel of the spec's round-based top-half formula at the same
point: `round(255·sin(π/6)) = round(127.5) = 128`. -/
theorem specTopColor_green_at_one_third : (specTopColor 3 255 1).2.1 = 128 := by
  have hα : ((1 : ℝ) / (3 : ℝ)) * (Real.pi / 2) = Real.pi / 6 := by ring
  simp only [specTopColor, Nat.cast_ofNat, Nat.cast_one]
  rw [hα, Real.sin_pi_div_six, round_eq]
  norm_num

/-- C5 counterexample: at `depth = 6`, `intensity = 255`, index `i = 1` (outside
the fade span `[0, 1)` and below `depth - 1 = 5`), the generated entry differs
from the spec formula with `round()`: the code truncates `255·sin(π/6) = 127.5`
to green 127 while the spec's `round` gives 128. -/
theorem generate_entry_ne_round_formula :
    (ColorMap.generate 6 255)[1]? ≠ some (specTopColor 3 255 1) := by
  rw [generate_getElem_top 6 255 1 (by decide) (by decide) (by decide),
    show (6 : ℕ) / 2 = 3 by norm_num]
  intro h
  rw [Option.some_inj] at h
  have h2 := congrArg (fun t : ℤ × ℤ × ℤ => t.2.1) h
  simp only [topColor_green_at_one_third, specTopColor_green_at_one_third] at h2
  exact absurd h2 (by decide)

/-- C5 as amended: for every `depth ≥ 2` and `intensity ∈ [1, 255]`, each entry
at an index `i` outside the anti-banding fade span and below `depth - 1`
equals the per-half formula with Python's `int()` TRUNCATION (not `round()`):
top-half entries are `(0, int(intensity·sin α), int(intensity·cos α))` and
bottom-half entries `(int(intensity·sin α), int(intensity·cos α), 0)`. -/
theorem generate_entry_eq_trunc_formula (N I i : ℕ) (hN : 2 ≤ N) (hI1 : 1 ≤ I)
    (hI2 : I ≤ 255) (hf : N / 2 / 3 ≤ i) (hiN : i < N - 1) :
    (i < N / 2 → (ColorMap.generate N I)[i]? = some (topColor (N / 2) I i)) ∧
    (N / 2 ≤ i →
      (ColorMap.generate N I)[i]? = some (bottomColor (N - N / 2) I (i - N / 2))) :=
  ⟨fun ht => generate_getElem_top N I i hf ht hiN,
   fun hb => generate_getElem_bottom N I i hb hiN⟩

/-- Witness for the amended C5 at `depth = 6`, `intensity = 255`, `i = 4`
(a bottom-half index). -/
theorem generate_entry_eq_trunc_formula_witness :
    2 ≤ 6 ∧ 1 ≤ 255 ∧ 255 ≤ 255 ∧ 6 / 2 / 3 ≤ 4 ∧ 4 < 6 - 1 ∧
      ((4 < 6 / 2 → (ColorMap.generate 6 255)[4]? = some (topColor (6 / 2) 255 4)) ∧
        (6 / 2 ≤ 4 →
          (ColorMap.generate 6 255)[4]? = some (bottomColor (6 - 6 / 2) 255 (4 - 6 / 2)))) :=
  ⟨by decide, by decide, by decide, by decide, by decide,
    generate_entry_eq_trunc_formula 6 255 4 (by decide) (by decide) (by decide)
      (by decide) (by decide)⟩

/-- C7: for every `depth ≥ 2` and `intensity ∈ [1, 255]`, the generated color
table has length exactly `depth` and its last entry is the black sentinel
`(0, 0, 0)`. -/
theorem generate_length_and_black_sentinel (N I : ℕ) (hN : 2 ≤ N) (hI1 : 1 ≤ I)
    (hI2 : I ≤ 255) :
    (ColorMap.generate N I).length = N ∧ (ColorMap.generate N I)[N - 1]? = some (0, 0, 0) :=
  ⟨generate_length N I, generate_getElem_last N I (by omega)⟩

/-- Witness for C7 at `depth = 2`, `intensity = 1`. -/
theorem generate_length_and_black_sentinel_witness :
    2 ≤ 2 ∧ 1 ≤ 1 ∧ 1 ≤ 255 ∧
      ((ColorMap.generate 2 1).length = 2 ∧ (ColorMap.generate 2 1)[2 - 1]? = some (0, 0, 0)) :=
  ⟨le_refl 2, le_refl 1, by decide,
    generate_length_and_black_sentinel 2 1 (le_refl 2) (le_refl 1) (by decide)⟩

/-- C8: on a generated table of size `depth`, `getColor` fails with the
OutOfRange condition for every `n ≥ depth`, succeeds with the entry at index
`n` for every `n ∈ [0, depth)`, and in particular never fails when a caller
passes `n - 1` for an `n ∈ [1, depth]` returned by the escape evaluator. -/
theorem getColor_range_contract (N I : ℕ) (hN : 2 ≤ N) (hI1 : 1 ≤ I) (hI2 : I ≤ 255)
    (n : ℤ) :
    ((N : ℤ) ≤ n → ColorMap.getColor (ColorMap.generate N I) N n = .outOfRange) ∧
    (0 ≤ n → n < (N : ℤ) →
      ∃ c, (ColorMap.generate N I)[n.toNat]? = some c ∧
        ColorMap.getColor (ColorMap.generate N I) N n = .ok c) ∧
    (1 ≤ n → n ≤ (N : ℤ) →
      ColorMap.getColor (ColorMap.generate N I) N (n - 1) ≠ .outOfRange) := by
  refine ⟨fun h => ?_,
    fun h0 h1 => getColor_ok_of_nonneg _ N n h0 h1 (generate_length N I),
    fun h1 h2 => ?_⟩
  · rw [ColorMap.getColor, if_neg (not_lt.2 h)]
  · obtain ⟨c, -, hc⟩ := getColor_ok_of_nonneg (ColorMap.generate N I) N (n - 1)
      (by omega) (by omega) (generate_length N I)
    simp [hc]

/-- Witness for C8 at `depth = 2`, `intensity = 1`, `n = 2`. -/
theorem getColor_range_contract_witness :
    2 ≤ 2 ∧ 1 ≤ 1 ∧ 1 ≤ 255 ∧
      ((((2 : ℕ) : ℤ) ≤ 2 → ColorMap.getColor (ColorMap.generate 2 1) 2 2 = .outOfRange) ∧
        (0 ≤ (2 : ℤ) → (2 : ℤ) < ((2 : ℕ) : ℤ) →
          ∃ c, (ColorMap.generate 2 1)[(2 : ℤ).toNat]? = some c ∧
            ColorMap.getColor (ColorMap.generate 2 1) 2 2 = .ok c) ∧
        (1 ≤ (2 : ℤ) → (2 : ℤ) ≤ ((2 : ℕ) : ℤ) →
          ColorMap.getColor (ColorMap.generate 2 1) 2 (2 - 1) ≠ .outOfRange)) :=
  ⟨le_refl 2, le_refl 1, by decide,
    getColor_range_contract 2 1 (le_refl 2) (le_refl 1) (by decide) 2⟩

/-- C10: on a generated table of size `depth`, a negative index
`-depth ≤ n ≤ -1` does NOT raise the OutOfRange condition: Python's negative
indexing silently returns the entry at `depth + n`; in particular
`getColor(table, -1)` returns the black sentinel `(0, 0, 0)`. -/
theorem getColor_negative_index_silent (N I : ℕ) (hN : 2 ≤ N) (hI1 : 1 ≤ I)
    (hI2 : I ≤ 255) :
    (∀ n : ℤ, -(N : ℤ) ≤ n → n ≤ -1 →
      ∃ c, (ColorMap.generate N I)[((N : ℤ) + n).toNat]? = some c ∧
        ColorMap.getColor (ColorMap.generate N I) N n = .ok c) ∧
    ColorMap.getColor (ColorMap.generate N I) N (-1) = .ok (0, 0, 0) := by
  have hlen := generate_length N I
  constructor
  · intro n hn1 hn2
    obtain ⟨c, hc⟩ : ∃ c, (ColorMap.generate N I)[((N : ℤ) + n).toNat]? = some c :=
      ⟨_, List.getElem?_eq_getElem (by omega)⟩
    refine ⟨c, hc, ?_⟩
    rw [ColorMap.getColor, if_pos (by omega), pyIndex, if_neg (by omega), hlen,
      if_pos (by omega), hc]
  · have h1 : ((N : ℤ) + (-1)).toNat = N - 1 := by omega
    have hlast := generate_getElem_last N I (by omega)
    rw [ColorMap.getColor, if_pos (by omega), pyIndex, if_neg (by omega), hlen,
      if_pos (by omega), h1, hlast]

/-- Witness for C10 at `depth = 2`, `intensity = 1`, with `n = -2`. -/
theorem getColor_negative_index_silent_witness :
    2 ≤ 2 ∧ 1 ≤ 1 ∧ 1 ≤ 255 ∧
      ((∀ n : ℤ, -((2 : ℕ) : ℤ) ≤ n → n ≤ -1 →
        ∃ c, (ColorMap.generate 2 1)[(((2 : ℕ) : ℤ) + n).toNat]? = some c ∧
          ColorMap.getColor (ColorMap.generate 2 1) 2 n = .ok c) ∧
        ColorMap.getColor (ColorMap.generate 2 1) 2 (-1) = .ok (0, 0, 0)) :=
  ⟨le_refl 2, le_refl 1, by decide,
    getColor_negative_index_silent 2 1 (le_refl 2) (le_refl 1) (by decide)⟩

/-! ## End-to-end 2×2 render (claim C3) -/

/-- The 2×2 pixel grid over the full-set range samples exactly the four
claimed points (pixel centers, `Δ = 2`), in `pixelMap[i][j]` layout. -/
theorem pixelMap_two :
    getPixelMap 2 fullSetRange =
      [[((-1 : ℚ), 1), ((-1 : ℚ), -1)], [((1 : ℚ), 1), ((1 : ℚ), -1)]] := by
  norm_num [getPixelMap, fullSetRange, List.range_succ]

theorem iter_m1p1 : mandelbrotIterations ((-1 : ℚ), 1) 50 = 3 := by
  rw [mandelbrotIterations]
  repeat (rw [mandelLoop_unfold]; norm_num [normSq, mandelStep])

theorem iter_m1m1 : mandelbrotIterations ((-1 : ℚ), -1) 50 = 3 := by
  rw [mandelbrotIterations]
  repeat (rw [mandelLoop_unfold]; norm_num [normSq, mandelStep])

theorem iter_p1p1 : mandelbrotIterations ((1 : ℚ), 1) 50 = 2 := by
  rw [mandelbrotIterations]
  repeat (rw [mandelLoop_unfold]; norm_num [normSq, mandelStep])

theorem iter_p1m1 : mandelbrotIterations ((1 : ℚ), -1) 50 = 2 := by
  rw [mandelbrotIterations]
  repeat (rw [mandelLoop_unfold]; norm_num [normSq, mandelStep])

/-- C3: rendering the viewport with corner `(-2, 2)`, side 4, at resolution 2
with `maxDepth = 50` samples exactly the four complex points
`(-1,1), (1,1), (-1,-1), (1,-1)` (pixel-center sampling with step 2), invokes
the per-pixel progress callback exactly 4 times with the final call reporting
`completed = total = 4` (and `maxSignal = 4`), and paints the four grid cells
`(i, j)` with color `colorTable[iterate(point(i,j), 50) - 1]`. -/
theorem render_two_by_two_end_to_end (tbl : List (ℤ × ℤ × ℤ)) (h : tbl.length = 50) :
    getPixelMap 2 fullSetRange =
      [[((-1 : ℚ), 1), ((-1 : ℚ), -1)], [((1 : ℚ), 1), ((1 : ℚ), -1)]] ∧
    ∃ r, fillImage fullSetRange 2 50 tbl 50 = some r ∧
      r.maxEmit = 4 ∧
      r.progress = [1, 2, 3, 4] ∧
      (r.pixels.map fun p => (p.1, p.2.1)) = [(0, 0), (0, 1), (1, 0), (1, 1)] ∧
      ∀ p ∈ r.pixels,
        tbl[mandelbrotIterations
            (((getPixelMap 2 fullSetRange).getD p.1 []).getD p.2.1 (0, 0)) 50 - 1]? =
          some p.2.2 := by
  obtain ⟨c1, hc1⟩ : ∃ c, tbl[1]? = some c := ⟨_, List.getElem?_eq_getElem (by omega)⟩
  obtain ⟨c2, hc2⟩ : ∃ c, tbl[2]? = some c := ⟨_, List.getElem?_eq_getElem (by omega)⟩
  have hg2 : ColorMap.getColor tbl 50 (((3 : ℕ) : ℤ) - 1) = .ok c2 := by
    rw [ColorMap.getColor, if_pos (by norm_num), pyIndex, if_pos (by norm_num),
      show ((((3 : ℕ) : ℤ)) - 1).toNat = 2 by decide, hc2]
  have hg1 : ColorMap.getColor tbl 50 (((2 : ℕ) : ℤ) - 1) = .ok c1 := by
    rw [ColorMap.getColor, if_pos (by norm_num), pyIndex, if_pos (by norm_num),
      show ((((2 : ℕ) : ℤ)) - 1).toNat = 1 by decide, hc1]
  have p00 : ((getPixelMap 2 fullSetRange).getD 0 []).getD 0 (0, 0) = ((-1 : ℚ), 1) := by
    rw [pixelMap_two]; rfl
  have p01 : ((getPixelMap 2 fullSetRange).getD 0 []).getD 1 (0, 0) = ((-1 : ℚ), -1) := by
    rw [pixelMap_two]; rfl
  have p10 : ((getPixelMap 2 fullSetRange).getD 1 []).getD 0 (0, 0) = ((1 : ℚ), 1) := by
    rw [pixelMap_two]; rfl
  have p11 : ((getPixelMap 2 fullSetRange).getD 1 []).getD 1 (0, 0) = ((1 : ℚ), -1) := by
    rw [pixelMap_two]; rfl
  have s00 : fillStep 2 50 (getPixelMap 2 fullSetRange) tbl 50 ([], [], 1) (0, 0) =
      some ([(0, 0, c2)], [1], 2) := by
    simp only [fillStep, p00, iter_m1p1, hg2]
    norm_num
  have s01 : fillStep 2 50 (getPixelMap 2 fullSetRange) tbl 50 ([(0, 0, c2)], [1], 2) (0, 1) =
      some ([(0, 0, c2), (0, 1, c2)], [1, 2], 3) := by
    simp only [fillStep, p01, iter_m1m1, hg2]
    norm_num
  have s10 : fillStep 2 50 (getPixelMap 2 fullSetRange) tbl 50
      ([(0, 0, c2), (0, 1, c2)], [1, 2], 3) (1, 0) =
      some ([(0, 0, c2), (0, 1, c2), (1, 0, c1)], [1, 2, 3], 4) := by
    simp only [fillStep, p10, iter_p1p1, hg1]
    norm_num
  have s11 : fillStep 2 50 (getPixelMap 2 fullSetRange) tbl 50
      ([(0, 0, c2), (0, 1, c2), (1, 0, c1)], [1, 2, 3], 4) (1, 1) =
      some ([(0, 0, c2), (0, 1, c2), (1, 0, c1), (1, 1, c1)], [1, 2, 3, 4], 5) := by
    simp only [fillStep, p11, iter_p1m1, hg1]
    norm_num
  have hcells : ((List.range 2).flatMap fun i => (List.range 2).map fun j => (i, j)) =
      [(0, 0), (0, 1), (1, 0), (1, 1)] := by decide
  have hfold : fillImage fullSetRange 2 50 tbl 50 =
      some ⟨4, [(0, 0, c2), (0, 1, c2), (1, 0, c1), (1, 1, c1)], [1, 2, 3, 4]⟩ := by
    rw [fillImage, hcells]
    simp only [List.foldlM_cons, List.foldlM_nil, s00, s01, s10, s11, Option.bind_eq_bind,
      Option.some_bind, Option.map_some]
    norm_num
  refine ⟨pixelMap_two,
    ⟨4, [(0, 0, c2), (0, 1, c2), (1, 0, c1), (1, 1, c1)], [1, 2, 3, 4]⟩, hfold,
    rfl, rfl, rfl, ?_⟩
  intro p hp
  simp only [List.mem_cons, List.not_mem_nil, or_false] at hp
  rcases hp with rfl | rfl | rfl | rfl
  · rw [p00, iter_m1p1]; exact hc2
  · rw [p01, iter_m1m1]; exact hc2
  · rw [p10, iter_p1p1]; exact hc1
  · rw [p11, iter_p1m1]; exact hc1

/-- Witness for C3 with the all-black table of length 50. -/
theorem render_two_by_two_end_to_end_witness :
    (List.replicate 50 ((0 : ℤ), (0 : ℤ), (0 : ℤ))).length = 50 ∧
    (getPixelMap 2 fullSetRange =
        [[((-1 : ℚ), 1), ((-1 : ℚ), -1)], [((1 : ℚ), 1), ((1 : ℚ), -1)]] ∧
      ∃ r, fillImage fullSetRange 2 50 (List.replicate 50 ((0 : ℤ), (0 : ℤ), (0 : ℤ))) 50 =
          some r ∧
        r.maxEmit = 4 ∧
        r.progress = [1, 2, 3, 4] ∧
        (r.pixels.map fun p => (p.1, p.2.1)) = [(0, 0), (0, 1), (1, 0), (1, 1)] ∧
        ∀ p ∈ r.pixels,
          (List.replicate 50 ((0 : ℤ), (0 : ℤ), (0 : ℤ)))[mandelbrotIterations
              (((getPixelMap 2 fullSetRange).getD p.1 []).getD p.2.1 (0, 0)) 50 - 1]? =
            some p.2.2) :=
  ⟨rfl, render_two_by_two_end_to_end (List.replicate 50 ((0 : ℤ), (0 : ℤ), (0 : ℤ))) rfl⟩

end Mandelbrot
